import Mathlib

/-!
Verification of the private-cloud-rust transfer pipeline and crypto wrappers.

Shallow embedding of:
- src/crypto/hash.rs       (HashKey, ChunkedHash)
- src/crypto/master_key.rs (MasterKey, derive_subkey)
- src/aws/s3.rs            (s3_upload_file, send_parts, s3_download_file,
                            s3_download_file_impl, CHUNK_SIZE)
- src/aws/provider.rs      (AwsConfig and its Debug impl)
- src/provider.rs          (StorageId, FileSize, FileHash)

Bytes are modelled as Nat, byte strings as List Nat, Rust Strings as
List Char.  The libsodium primitives (crypto_generichash = BLAKE2b and
crypto_kdf_derive_from_key) are external C library calls; they are modelled
by concrete deterministic Lean functions of exactly the inputs the C API
consumes: the generichash digest is a function of (init key, bytes absorbed
since init, in order), and the KDF output is a function of (master key
bytes, output length, u64 subkey id, 8-byte context field).  Every theorem
below about these primitives depends only on that determinism, never on the
particular function bodies chosen here.
-/

namespace PrivateCloud

/-- A byte (u8); operations below never depend on the 0..255 bound. -/
abbrev Byte := Nat

/-- src/aws/s3.rs line 14: `const CHUNK_SIZE: usize = 100 * 1024 * 1024`. -/
def CHUNK_SIZE : Nat := 100 * 1024 * 1024

/-- src/crypto/hash.rs: `HASH_SIZE = crypto_generichash_BYTES` (32). -/
def HASH_SIZE : Nat := 32

/-- src/crypto/hash.rs: `HASH_KEY_SIZE = crypto_generichash_KEYBYTES` (32). -/
def HASH_KEY_SIZE : Nat := 32

/-- src/crypto/master_key.rs: `MASTER_KEY_SIZE = crypto_kdf_KEYBYTES` (32). -/
def MASTER_KEY_SIZE : Nat := 32

/-- src/crypto/master_key.rs: `CONTEXT_SIZE = crypto_kdf_CONTEXTBYTES` (8). -/
def CONTEXT_SIZE : Nat := 8

/-! ## Model of the libsodium digest (crypto_generichash / BLAKE2b) -/

/-- One absorption step of the modelled digest (64-bit accumulator). -/
def hashStep (acc b : Nat) : Nat := (acc * 131 + b + 17) % 2 ^ 64

/-- Absorb a byte sequence into the accumulator. -/
def hashAbsorb (acc : Nat) (data : List Byte) : Nat :=
  data.foldl hashStep acc

/-- Accumulator value of the modelled digest of (optional key, message).
For a keyed digest the key is absorbed first with a domain separator,
matching BLAK E2b's key-as-first-block behaviour at the interface level. -/
def genericHashAcc (key : Option (List Byte)) (data : List Byte) : Nat :=
  match key with
  | none => hashAbsorb 5381 data
  | some k => hashAbsorb (hashStep (hashAbsorb 5381 k) 256) data

/-- Model of the finalized crypto_generichash digest: HASH_SIZE output bytes,
a deterministic function of the init key and the absorbed byte sequence. -/
def genericHash (key : Option (List Byte)) (data : List Byte) : List Byte :=
  (List.range HASH_SIZE).map (fun i => genericHashAcc key data / 256 ^ i % 256)

/-- Lower-case hex digit for a value 0..15, as produced by hex::encode. -/
def hexDigitChar (n : Nat) : Char :=
  if n < 10 then Char.ofNat (48 + n) else Char.ofNat (87 + n)

/-- Model of hex::encode: two lower-case hex chars per byte, in order. -/
def hexEncode (bytes : List Byte) : List Char :=
  bytes.foldr (fun b acc => hexDigitChar (b / 16) :: hexDigitChar (b % 16) :: acc) []

/-! ## MasterKey (src/crypto/master_key.rs) -/

/-- MasterKey: MASTER_KEY_SIZE secret bytes held in sodium guarded memory
(the guarded-allocation lifecycle is memory management, not data flow, and
is not modelled).  Source field name: `opaque`. -/
structure MasterKey where
  keyBytes : List Byte
deriving DecidableEq

/-- The fixed-size context field crypto_kdf_derive_from_key receives:
derive_subkey zero-initialises CONTEXT_SIZE bytes and copies the first
`min (context.length) CONTEXT_SIZE` bytes of the caller's context into it
(src/crypto/master_key.rs lines 56-61). -/
def contextField (context : List Byte) : List Byte :=
  (List.range CONTEXT_SIZE).map
    (fun i => if h : i < context.length then context.get ⟨i, h⟩ else 0)

/-- Model of libsodium crypto_kdf_derive_from_key: subkeyLen output bytes,
a deterministic function of (master key, output length, u64 subkey id,
CONTEXT_SIZE-byte context field). -/
def cryptoKdfDeriveFromKey (key : List Byte) (subkeyLen subkeyId : Nat)
    (ctx : List Byte) : List Byte :=
  (List.range subkeyLen).map
    (fun i =>
      hashAbsorb (hashAbsorb (hashAbsorb (hashAbsorb 3 key) [subkeyId % 2 ^ 64]) ctx) [i] % 256)

/-- MasterKey::derive_subkey (src/crypto/master_key.rs lines 55-77): fills the
caller's buffer (modelled by returning a list of the buffer's length) from
(self, subkey_id, context), after truncating/zero-padding the context to the
CONTEXT_SIZE field passed to the KDF. -/
def MasterKey.derive_subkey (mk : MasterKey) (subkeyLen subkeyId : Nat)
    (context : List Byte) : List Byte :=
  cryptoKdfDeriveFromKey mk.keyBytes subkeyLen subkeyId (contextField context)

/-! ## HashKey and ChunkedHash (src/crypto/hash.rs) -/

/-- HashKey: a HASH_KEY_SIZE-byte key derived from the master key.
Source field name: `opaque`. -/
structure HashKey where
  keyBytes : List Byte
deriving DecidableEq

/-- HashKey::new (src/crypto/hash.rs lines 26-32). -/
def HashKey.new (mk : MasterKey) (keyid : Nat) (context : List Byte) : HashKey :=
  HashKey.mk (mk.derive_subkey HASH_KEY_SIZE keyid context)

/-- ChunkedHash: a crypto_generichash_state.  The C state is a deterministic
function of the init key and the bytes absorbed since init, which is how it
is represented here; for a keyed state the 128-byte input buffer holds the
key block itself right after init. -/
structure ChunkedHash where
  key : Option (List Byte)
  fed : List Byte
deriving DecidableEq

/-- ChunkedHash::new (src/crypto/hash.rs lines 41-50): keyless init. -/
def ChunkedHash.new : ChunkedHash :=
  ChunkedHash.mk none []

/-- ChunkedHash::keyed (src/crypto/hash.rs lines 52-61): keyed init. -/
def ChunkedHash.keyed (k : HashKey) : ChunkedHash :=
  ChunkedHash.mk (some k.keyBytes) []

/-- Model of one crypto_generichash_update call: absorbs a contiguous chunk
into the streaming state. -/
def cryptoGenericHashUpdate (st : ChunkedHash) (chunk : List Byte) : ChunkedHash :=
  ChunkedHash.mk st.key (st.fed ++ chunk)

/-- ChunkedHash::update (src/crypto/hash.rs lines 63-74): walks the chunks of
the `impl Buf` argument in order (the while-loop over data.chunk()), absorbing
each into the state.  A Buf is modelled as its list of contiguous chunks. -/
def ChunkedHash.update (h : ChunkedHash) (data : List (List Byte)) : ChunkedHash :=
  data.foldl cryptoGenericHashUpdate h

/-- ChunkedHash::finalize (src/crypto/hash.rs lines 76-84): consumes the state
and produces the HASH_SIZE-byte digest. -/
def ChunkedHash.finalize (h : ChunkedHash) : List Byte :=
  genericHash h.key h.fed

/-- The accumulator a transfer starts from: ChunkedHash::new for the unkeyed
case, ChunkedHash::keyed for the keyed case. -/
def chunkedHashInit : Option HashKey → ChunkedHash
  | none => ChunkedHash.new
  | some k => ChunkedHash.keyed k

/-! ## Debug formatting (the Rust Debug impls) -/

/-- MasterKey's hand-written Debug impl (src/crypto/master_key.rs lines
88-94): prints a fixed placeholder, never the key bytes. -/
def MasterKey.debugFmt (_mk : MasterKey) : List Char :=
  "MasterKey \x7b opaque: \"*****\" \x7d".data

/-- HashKey's hand-written Debug impl (src/crypto/hash.rs lines 17-23):
prints a fixed placeholder, never the key bytes. -/
def HashKey.debugFmt (_hk : HashKey) : List Char :=
  "ChunkedHashKey \x7b opaque: \"*****\" \x7d".data

/-- AwsConfig (src/aws/provider.rs lines 17-24). -/
structure AwsConfig where
  s3_bucket : List Char
  aws_region : List Char
  aws_access_key_id : List Char
  aws_secret_access_key : List Char
  master_key : List Char
deriving DecidableEq

/-- AwsConfig's hand-written Debug impl (src/aws/provider.rs lines 26-36):
prints bucket, region and access key id verbatim, and a fixed placeholder
for the secret access key and the master key hex. -/
def AwsConfig.debugFmt (c : AwsConfig) : List Char :=
  "AwsConfig \x7b s3_bucket: \"".data ++ c.s3_bucket ++
  "\", aws_region: \"".data ++ c.aws_region ++
  "\", aws_access_key_id: \"".data ++ c.aws_access_key_id ++
  "\", aws_secret_access_key: \"*****\", master_key: \"*****\" \x7d".data

/-- The 128-byte BLAKE2b input-buffer block holding the init key (keyed init
copies the key into the state's buffer, zero-padded to a block). -/
def keyBlock : Option (List Byte) → List Byte
  | none => []
  | some k => k ++ List.replicate (128 - k.length) 0

/-- The contents of the 384-byte `crypto_generichash_state.opaque` array:
a key-dependent block for keyed states, followed by the absorbed input
(abstracted as the fed byte sequence). -/
def ChunkedHash.stateBytes (h : ChunkedHash) : List Byte :=
  keyBlock h.key ++ h.fed

/-- Decimal rendering of a byte list, as the derived Debug of `[u8; 384]`
renders the array elements. -/
def renderBytes (bs : List Byte) : List Char :=
  (bs.map (fun b => (Nat.repr b).data ++ [',', ' '])).flatten

/-- ChunkedHash's Debug impl is DERIVED (src/crypto/hash.rs line 35:
`#[derive(Clone, Debug)]`), so it prints the raw state array field by field
instead of a placeholder. -/
def ChunkedHash.debugFmt (h : ChunkedHash) : List Char :=
  "ChunkedHash \x7b state: crypto_generichash_state \x7b opaque: [".data ++
  renderBytes h.stateBytes ++ "] \x7d \x7d".data

/-! ## Provider value types (src/provider.rs) -/

/-- StorageId (src/provider.rs lines 5-8). -/
structure StorageId where
  id : List Char
deriving DecidableEq

/-- FileSize (src/provider.rs lines 10-13); `size` is a u64. -/
structure FileSize where
  size : Nat
deriving DecidableEq

/-- FileHash (src/provider.rs lines 15-18): hex-encoded digest. -/
structure FileHash where
  hash : List Char
deriving DecidableEq

/-! ## File chunking (the read loop of send_parts, src/aws/s3.rs lines 78-91)

send_parts assembles each part by repeatedly filling a CHUNK_SIZE-capacity
buffer from the file stream until the buffer is full or EOF, and stops at an
empty buffer.  `chunksOf n file` is the resulting sequence of parts. -/

/-- The buffer-filling loop: `cur` is the partially filled buffer, `xs` the
bytes not yet read.  A full buffer (length n) is emitted as a part and a
fresh buffer started; at EOF a non-empty buffer is emitted, an empty one is
not (the `buffer.is_empty()` break). -/
def chunksOfGo (n : Nat) : List Byte → List Byte → List (List Byte)
  | [], cur => if cur = [] then [] else [cur]
  | x :: xs, cur =>
    if (cur ++ [x]).length = n then (cur ++ [x]) :: chunksOfGo n xs []
    else chunksOfGo n xs (cur ++ [x])

/-- The sequence of parts send_parts reads out of a file of the given bytes. -/
def chunksOf (n : Nat) (file : List Byte) : List (List Byte) :=
  chunksOfGo n file []

/-! ## Errors and backend calls (src/aws/s3.rs) -/

/-- The anyhow errors the transfer pipeline produces or propagates. -/
inductive TransferError where
  /-- An error returned by an S3 backend call. -/
  | backend (msg : List Char)
  /-- "File size mismatch: expected {}, got {}" (src/aws/s3.rs lines 175-179);
  `got` is the i64 content_length. -/
  | sizeMismatch (expected : Nat) (got : Int)
  /-- "File hash mismatch: expected {}, got {}" (src/aws/s3.rs lines 197-201). -/
  | hashMismatch (expected got : List Char)
  /-- A local I/O error (file create/write/flush). -/
  | ioError (msg : List Char)
deriving DecidableEq

/-- The S3 API calls the pipeline can issue, recorded as a trace. -/
inductive S3Call where
  | createMultipartUpload
  | uploadPart (partNumber : Nat)
  | completeMultipartUpload
  | abortMultipartUpload
  | getObject
deriving DecidableEq

/-- aws_sdk_s3 CompletedPart: the backend-assigned e_tag plus the part
number, as recorded by send_parts (src/aws/s3.rs lines 115-120). -/
structure CompletedPart where
  eTag : Option (List Char)
  partNumber : Nat
deriving DecidableEq

/-- The backend's responses to the upload-side calls: upload_part may fail
per (part number, body); complete/abort may fail.  create_multipart_upload
yields the upload id. -/
structure S3UploadBackend where
  createResult : Except TransferError (Option (List Char))
  partResult : Nat → List Byte → Except TransferError (Option (List Char))
  completeResult : Except TransferError Unit
  abortResult : Except TransferError Unit

/-- Bool-valued success test for Except. -/
def exceptIsOk : Except ε α → Bool
  | .ok _ => true
  | .error _ => false

instance {ε α : Type} [DecidableEq ε] [DecidableEq α] : DecidableEq (Except ε α) :=
  fun x y =>
    match x, y with
    | .ok a, .ok b => decidable_of_iff (a = b) (by simp)
    | .ok _, .error _ => isFalse (by simp)
    | .error _, .ok _ => isFalse (by simp)
    | .error a, .error b => decidable_of_iff (a = b) (by simp)

/-! ## send_parts and s3_upload_file (src/aws/s3.rs lines 16-132) -/

/-- The part loop of send_parts (src/aws/s3.rs lines 78-121): for each chunk,
in part-number order, add the chunk's length to the running size, feed the
chunk to the hash, call upload_part, and either propagate its error (the `?`)
or record the CompletedPart.  Returns the loop outcome and the trace of
upload_part calls issued. -/
def sendPartsGo (be : S3UploadBackend) :
    List (List Byte) → Nat → Nat → ChunkedHash → List CompletedPart →
    Except TransferError (List CompletedPart × Nat × ChunkedHash) × List S3Call
  | [], _, filesize, hash, parts => (.ok (parts, filesize, hash), [])
  | chunk :: rest, partnum, filesize, hash, parts =>
    let hash2 := hash.update [chunk]
    match be.partResult partnum chunk with
    | .error e => (.error e, [S3Call.uploadPart partnum])
    | .ok tag =>
      let r := sendPartsGo be rest (partnum + 1) (filesize + chunk.length) hash2
        (parts ++ [CompletedPart.mk tag partnum])
      (r.fst, S3Call.uploadPart partnum :: r.snd)

/-- send_parts (src/aws/s3.rs lines 68-132): runs the part loop from part
number 1 over the file's chunks with a fresh keyed hash, and on success
finalizes the hash and hex-encodes it. -/
def send_parts (be : S3UploadBackend) (key : HashKey) (file : List Byte) :
    Except TransferError (List CompletedPart × FileSize × FileHash) × List S3Call :=
  let r := sendPartsGo be (chunksOf CHUNK_SIZE file) 1 0 (ChunkedHash.keyed key) []
  match r.fst with
  | .error e => (.error e, r.snd)
  | .ok x =>
    (.ok (x.1, FileSize.mk x.2.1, FileHash.mk (hexEncode x.2.2.finalize)), r.snd)

/-- s3_upload_file (src/aws/s3.rs lines 16-66): create the multipart session
(propagating its error), run send_parts; on success call
complete_multipart_upload (propagating its error, with no abort); on failure
call abort_multipart_upload best-effort (its own failure is only logged) and
return send_parts' original error.  The storage id is a client-generated
random UUID string, taken as a parameter; the file is modelled by its byte
content.  Returns the result plus the trace of S3 calls issued. -/
def s3_upload_file (be : S3UploadBackend) (key : HashKey) (storage_id : List Char)
    (file : List Byte) :
    Except TransferError (StorageId × FileSize × FileHash) × List S3Call :=
  match be.createResult with
  | .error e => (.error e, [S3Call.createMultipartUpload])
  | .ok _uploadId =>
    let r := send_parts be key file
    match r.fst with
    | .ok x =>
      match be.completeResult with
      | .ok _ =>
        (.ok (StorageId.mk storage_id, x.2.1, x.2.2),
         S3Call.createMultipartUpload :: r.snd ++ [S3Call.completeMultipartUpload])
      | .error e =>
        (.error e,
         S3Call.createMultipartUpload :: r.snd ++ [S3Call.completeMultipartUpload])
    | .error e =>
      (.error e,
       S3Call.createMultipartUpload :: r.snd ++ [S3Call.abortMultipartUpload])

/-- A backend on which every upload-side call succeeds. -/
def honestUpload : S3UploadBackend where
  createResult := .ok (some ("upload-id".data))
  partResult := fun _n _c => .ok (some ("etag".data))
  completeResult := .ok ()
  abortResult := .ok ()

/-! ## s3_download_file (src/aws/s3.rs lines 134-205) -/

/-- The get_object response: the i64 content_length, the body's successfully
delivered chunks in order, and an optional error terminating the stream
(None = clean EOF). -/
structure GetObjectResp where
  contentLength : Int
  body : List (List Byte)
  bodyErr : Option TransferError

/-- The download-side environment: the get_object outcome, whether
File::create succeeds, which body-chunk writes succeed, and whether the
final flush succeeds. -/
structure S3DownloadBackend where
  getResult : Except TransferError GetObjectResp
  createOk : Bool
  writeOk : Nat → Bool
  flushOk : Bool

/-- The local filesystem at the destination path: None = no file there. -/
structure FS where
  dest : Option (List Byte)
deriving DecidableEq

/-- tokio remove_file on the destination path (src/aws/s3.rs line 148): after
it, no file is at the destination (an ENOENT failure, logged and ignored by
the caller, leaves the same post-state). -/
def remove_file (_fs : FS) : FS :=
  FS.mk none

/-- The body-streaming loop (src/aws/s3.rs lines 185-189): for each delivered
chunk, feed it to the hash, then write it to the destination file; a failed
write aborts with an I/O error.  Returns the hash outcome and the bytes
written to the file. -/
def streamLoop (writeOk : Nat → Bool) :
    List (List Byte) → Nat → ChunkedHash → List Byte →
    Except TransferError ChunkedHash × List Byte
  | [], _, hash, content => (.ok hash, content)
  | chunk :: rest, i, hash, content =>
    let hash2 := hash.update [chunk]
    if writeOk i then streamLoop writeOk rest (i + 1) hash2 (content ++ chunk)
    else (.error (.ioError ("write failed".data)), content)

/-- s3_download_file_impl (src/aws/s3.rs lines 156-205): get_object
(propagating its error); fail with the size-mismatch error if content_length
is negative or differs from expected_size, before creating the file or
reading any body; create the destination file (truncating it to empty);
stream the body, hashing and writing each chunk; propagate a stream error;
flush; compare the hex-encoded digest to expected_hash and fail with the
hash-mismatch error on inequality.  Returns the result and the filesystem
state it leaves behind. -/
def s3_download_file_impl (be : S3DownloadBackend) (key : HashKey)
    (expected_hash : FileHash) (expected_size : FileSize) (fs : FS) :
    Except TransferError Unit × FS :=
  match be.getResult with
  | .error e => (.error e, fs)
  | .ok resp =>
    if resp.contentLength < 0 ∨ resp.contentLength.toNat ≠ expected_size.size then
      (.error (.sizeMismatch expected_size.size resp.contentLength), fs)
    else if be.createOk = false then
      (.error (.ioError ("create failed".data)), fs)
    else
      let r := streamLoop be.writeOk resp.body 0 (ChunkedHash.keyed key) []
      match r.fst with
      | .error e => (.error e, FS.mk (some r.snd))
      | .ok hash =>
        match resp.bodyErr with
        | some e => (.error e, FS.mk (some r.snd))
        | none =>
          if be.flushOk = false then
            (.error (.ioError ("flush failed".data)), FS.mk (some r.snd))
          else
            let actual := hexEncode hash.finalize
            if actual ≠ expected_hash.hash then
              (.error (.hashMismatch expected_hash.hash actual), FS.mk (some r.snd))
            else (.ok (), FS.mk (some r.snd))

/-- s3_download_file (src/aws/s3.rs lines 134-154): run the impl; on any
error, delete the destination file (best-effort) before returning the
error unchanged. -/
def s3_download_file (be : S3DownloadBackend) (key : HashKey)
    (expected_hash : FileHash) (expected_size : FileSize) (fs : FS) :
    Except TransferError Unit × FS :=
  let r := s3_download_file_impl be key expected_hash expected_size fs
  match r.fst with
  | .ok _ => r
  | .error e => (.error e, remove_file r.snd)

/-- An honest download environment serving a stored object: get_object
reports the stored object's true length and delivers its bytes split into
the given body chunks (S3 streams the completed multipart object, which is
the concatenation of the uploaded parts); all local file operations
succeed.  Meaningful when `chunks.flatten = stored`. -/
def honestDownload (stored : List Byte) (chunks : List (List Byte)) :
    S3DownloadBackend where
  getResult := .ok (GetObjectResp.mk (stored.length : Int) chunks none)
  createOk := true
  writeOk := fun _ => true
  flushOk := true

/-- A backend whose upload_part calls always fail and whose abort call also
fails (used to exercise the failure-path theorems on concrete inputs). -/
def failingPartBackend : S3UploadBackend where
  createResult := .ok (some ("upload-id".data))
  partResult := fun _n _c => .error (.backend ("part upload failed".data))
  completeResult := .ok ()
  abortResult := .error (.backend ("abort failed".data))

/-- A backend on which every part succeeds but complete_multipart_upload
fails. -/
def failingCompleteBackend : S3UploadBackend where
  createResult := .ok (some ("upload-id".data))
  partResult := fun _n _c => .ok (some ("etag".data))
  completeResult := .error (.backend ("complete failed".data))
  abortResult := .ok ()

/-- A download environment whose get_object call fails. -/
def failingGetBackend : S3DownloadBackend where
  getResult := .error (.backend ("get_object failed".data))
  createOk := true
  writeOk := fun _ => true
  flushOk := true

/-! ## Helper lemmas: ChunkedHash -/

theorem ChunkedHash.update_key (h : ChunkedHash) (data : List (List Byte)) :
    (h.update data).key = h.key := by
  induction data generalizing h with
  | nil => rfl
  | cons c rest ih =>
    show ((cryptoGenericHashUpdate h c).update rest).key = h.key
    rw [ih]
    rfl

theorem ChunkedHash.update_fed (h : ChunkedHash) (data : List (List Byte)) :
    (h.update data).fed = h.fed ++ data.flatten := by
  induction data generalizing h with
  | nil => simp [ChunkedHash.update]
  | cons c rest ih =>
    show ((cryptoGenericHashUpdate h c).update rest).fed = _
    rw [ih]
    simp [cryptoGenericHashUpdate]

theorem foldl_update_key (calls : List (List (List Byte))) (h : ChunkedHash) :
    (calls.foldl ChunkedHash.update h).key = h.key := by
  induction calls generalizing h with
  | nil => rfl
  | cons c rest ih =>
    rw [show (c :: rest).foldl ChunkedHash.update h
          = rest.foldl ChunkedHash.update (h.update c) from rfl,
      ih, ChunkedHash.update_key]

theorem foldl_update_fed (calls : List (List (List Byte))) (h : ChunkedHash) :
    (calls.foldl ChunkedHash.update h).fed = h.fed ++ (calls.map List.flatten).flatten := by
  induction calls generalizing h with
  | nil => simp
  | cons c rest ih =>
    rw [show (c :: rest).foldl ChunkedHash.update h
          = rest.foldl ChunkedHash.update (h.update c) from rfl,
      ih, ChunkedHash.update_fed]
    simp

/-! ## Helper lemmas: chunking -/

theorem chunksOfGo_flatten (n : Nat) :
    ∀ (xs cur : List Byte), (chunksOfGo n xs cur).flatten = cur ++ xs := by
  intro xs
  induction xs with
  | nil =>
    intro cur
    by_cases h : cur = [] <;> simp [chunksOfGo, h]
  | cons x xs ih =>
    intro cur
    by_cases h : cur.length + 1 = n <;> simp [chunksOfGo, h, ih]

theorem chunksOf_flatten (n : Nat) (file : List Byte) :
    (chunksOf n file).flatten = file := by
  simpa using chunksOfGo_flatten n file []

theorem chunksOfGo_ne_nil (n : Nat) :
    ∀ (xs cur c : List Byte), c ∈ chunksOfGo n xs cur → c ≠ [] := by
  intro xs
  induction xs with
  | nil =>
    intro cur c hc
    by_cases h : cur = []
    · simp [chunksOfGo, h] at hc
    · simp [chunksOfGo, h] at hc
      simpa [hc] using h
  | cons x xs ih =>
    intro cur c hc
    by_cases h : (cur ++ [x]).length = n
    · simp only [chunksOfGo, if_pos h, List.mem_cons] at hc
      rcases hc with hc | hc
      · simp [hc]
      · exact ih [] c hc
    · simp only [chunksOfGo, if_neg h] at hc
      exact ih (cur ++ [x]) c hc

theorem chunksOfGo_length_le (n : Nat) :
    ∀ (xs cur : List Byte), cur.length < n →
      ∀ c ∈ chunksOfGo n xs cur, c.length ≤ n := by
  intro xs
  induction xs with
  | nil =>
    intro cur hcur c hc
    by_cases h : cur = []
    · simp [chunksOfGo, h] at hc
    · simp only [chunksOfGo, if_neg h, List.mem_singleton] at hc
      subst hc
      omega
  | cons x xs ih =>
    intro cur hcur c hc
    by_cases h : cur.length + 1 = n
    · simp only [chunksOfGo, List.length_append, List.length_singleton, if_pos h,
        List.mem_cons] at hc
      rcases hc with hc | hc
      · subst hc
        simp only [List.length_append, List.length_singleton]
        omega
      · exact ih [] (by simpa using Nat.lt_of_lt_of_le (Nat.zero_lt_succ cur.length) (Nat.le_of_eq h)) c hc
    · simp only [chunksOfGo, List.length_append, List.length_singleton, if_neg h] at hc
      refine ih (cur ++ [x]) ?_ c hc
      simp only [List.length_append, List.length_singleton]
      omega

theorem chunksOfGo_short (n : Nat) :
    ∀ (xs cur : List Byte), cur ++ xs ≠ [] → (cur ++ xs).length ≤ n →
      chunksOfGo n xs cur = [cur ++ xs] := by
  intro xs
  induction xs with
  | nil =>
    intro cur h1 _h2
    simp only [List.append_nil] at h1 ⊢
    simp [chunksOfGo, h1]
  | cons x xs ih =>
    intro cur _h1 h2
    simp only [List.length_append, List.length_cons] at h2
    by_cases h : cur.length + 1 = n
    · have hxs : xs = [] := List.eq_nil_of_length_eq_zero (by omega)
      subst hxs
      simp [chunksOfGo, h]
    · simp only [chunksOfGo, List.length_append, List.length_singleton, if_neg h]
      rw [ih (cur ++ [x]) (by simp)
        (by simp only [List.length_append, List.length_singleton]; omega)]
      simp

theorem chunksOf_short (n : Nat) (l : List Byte) (h1 : l ≠ []) (h2 : l.length ≤ n) :
    chunksOf n l = [l] := by
  have := chunksOfGo_short n l [] (by simpa using h1) (by simpa using h2)
  simpa [chunksOf] using this

theorem chunksOfGo_long (n : Nat) :
    ∀ (xs cur : List Byte), cur.length < n → n < (cur ++ xs).length →
      chunksOfGo n xs cur
        = (cur ++ xs).take n :: chunksOf n ((cur ++ xs).drop n) := by
  intro xs
  induction xs with
  | nil =>
    intro cur hcur hlong
    simp only [List.append_nil] at hlong
    omega
  | cons x xs ih =>
    intro cur hcur hlong
    by_cases h : cur.length + 1 = n
    · simp only [chunksOfGo, List.length_append, List.length_singleton, if_pos h]
      have hn : n = (cur ++ [x]).length := by
        simp only [List.length_append, List.length_singleton]
        omega
      have hsplit : cur ++ x :: xs = (cur ++ [x]) ++ xs := by simp
      rw [hsplit, hn, List.take_left, List.drop_left]
      rfl
    · simp only [chunksOfGo, List.length_append, List.length_singleton, if_neg h]
      have hsplit : cur ++ x :: xs = (cur ++ [x]) ++ xs := by simp
      rw [hsplit]
      refine ih (cur ++ [x]) ?_ ?_
      · simp only [List.length_append, List.length_singleton]
        omega
      · simp only [List.length_append, List.length_singleton, List.length_cons] at hlong ⊢
        omega

theorem chunksOf_long (n : Nat) (l : List Byte) (h1 : 0 < n) (h2 : n < l.length) :
    chunksOf n l = l.take n :: chunksOf n (l.drop n) := by
  have := chunksOfGo_long n l [] (by simpa using h1) (by simpa using h2)
  simpa [chunksOf] using this

theorem CHUNK_SIZE_pos : 0 < CHUNK_SIZE := by norm_num [CHUNK_SIZE]

theorem chunksOf_replicate_exact (b : Byte) :
    chunksOf CHUNK_SIZE (List.replicate CHUNK_SIZE b) = [List.replicate CHUNK_SIZE b] := by
  refine chunksOf_short _ _ ?_ ?_
  · exact List.ne_nil_of_length_pos (by rw [List.length_replicate]; exact CHUNK_SIZE_pos)
  · simp

theorem chunksOf_replicate_succ (b : Byte) :
    chunksOf CHUNK_SIZE (List.replicate (CHUNK_SIZE + 1) b)
      = [List.replicate CHUNK_SIZE b, [b]] := by
  rw [chunksOf_long CHUNK_SIZE _ CHUNK_SIZE_pos (by simp)]
  rw [List.take_replicate, List.drop_replicate]
  have h1 : CHUNK_SIZE ⊓ (CHUNK_SIZE + 1) = CHUNK_SIZE := by omega
  have h2 : CHUNK_SIZE + 1 - CHUNK_SIZE = 1 := by omega
  rw [h1, h2]
  rw [chunksOf_short _ _ (by simp) (by rw [List.length_replicate]; exact CHUNK_SIZE_pos)]
  simp

/-! ## Helper lemmas: the upload part loop -/

theorem sendPartsGo_calls (be : S3UploadBackend) :
    ∀ (chunks : List (List Byte)) (start fsz : Nat) (h : ChunkedHash)
      (acc : List CompletedPart) (c : S3Call),
      c ∈ (sendPartsGo be chunks start fsz h acc).snd → ∃ m, c = S3Call.uploadPart m := by
  intro chunks
  induction chunks with
  | nil =>
    intro start fsz h acc c hc
    simp [sendPartsGo] at hc
  | cons chunk rest ih =>
    intro start fsz h acc c hc
    rcases hr : be.partResult start chunk with e | tag
    · simp only [sendPartsGo, hr, List.mem_singleton] at hc
      exact ⟨start, hc⟩
    · simp only [sendPartsGo, hr, List.mem_cons] at hc
      rcases hc with hc | hc
      · exact ⟨start, hc⟩
      · exact ih _ _ _ _ c hc

theorem sendPartsGo_ok (be : S3UploadBackend) :
    ∀ (chunks : List (List Byte)) (start fsz : Nat) (h : ChunkedHash)
      (acc : List CompletedPart),
      (∀ i (hi : i < chunks.length),
        exceptIsOk (be.partResult (start + i) (chunks.get ⟨i, hi⟩)) = true) →
      ∃ newParts : List CompletedPart,
        sendPartsGo be chunks start fsz h acc
          = (.ok (acc ++ newParts, fsz + (chunks.map List.length).sum, h.update chunks),
             (List.range' start chunks.length).map S3Call.uploadPart)
        ∧ newParts.map CompletedPart.partNumber = List.range' start chunks.length := by
  intro chunks
  induction chunks with
  | nil =>
    intro start fsz h acc _hok
    exact ⟨[], by simp [sendPartsGo, ChunkedHash.update], by simp⟩
  | cons chunk rest ih =>
    intro start fsz h acc hok
    have h0 := hok 0 (by simp)
    rcases hr : be.partResult (start + 0) chunk with e | tag
    · rw [show (chunk :: rest).get ⟨0, by simp⟩ = chunk from rfl, hr] at h0
      simp [exceptIsOk] at h0
    · rw [Nat.add_zero] at hr
      have hok2 : ∀ i (hi : i < rest.length),
          exceptIsOk (be.partResult (start + 1 + i) (rest.get ⟨i, hi⟩)) = true := by
        intro i hi
        have := hok (i + 1) (by simpa using Nat.succ_lt_succ hi)
        rw [show (chunk :: rest).get ⟨i + 1, by simpa using Nat.succ_lt_succ hi⟩
              = rest.get ⟨i, hi⟩ from rfl] at this
        rw [show start + 1 + i = start + (i + 1) by omega]
        exact this
      obtain ⟨ps, heq, hmap⟩ := ih (start + 1) (fsz + chunk.length) (h.update [chunk])
        (acc ++ [CompletedPart.mk tag start]) hok2
      refine ⟨CompletedPart.mk tag start :: ps, ?_, ?_⟩
      · simp only [sendPartsGo, hr, heq]
        refine congrArg₂ Prod.mk (congrArg Except.ok (congrArg₂ Prod.mk ?_ (congrArg₂ Prod.mk ?_ ?_))) ?_
        · simp
        · simp only [List.map_cons, List.sum_cons]
          omega
        · rfl
        · simp [List.range'_succ]
      · simp [List.range'_succ, hmap]

theorem sendPartsGo_fail (be : S3UploadBackend) (e : TransferError) :
    ∀ (chunks : List (List Byte)) (N : Nat) (hN : N < chunks.length)
      (start fsz : Nat) (h : ChunkedHash) (acc : List CompletedPart),
      (∀ i (hi : i < N),
        exceptIsOk (be.partResult (start + i) (chunks.get ⟨i, Nat.lt_trans hi hN⟩)) = true) →
      be.partResult (start + N) (chunks.get ⟨N, hN⟩) = .error e →
      (sendPartsGo be chunks start fsz h acc).fst = .error e := by
  intro chunks
  induction chunks with
  | nil =>
    intro N hN
    exact absurd hN (by simp)
  | cons chunk rest ih =>
    intro N hN start fsz h acc hok hfail
    cases N with
    | zero =>
      rw [Nat.add_zero, show (chunk :: rest).get ⟨0, hN⟩ = chunk from rfl] at hfail
      simp [sendPartsGo, hfail]
    | succ M =>
      have h0 := hok 0 (Nat.zero_lt_succ M)
      rw [Nat.add_zero, show (chunk :: rest).get ⟨0, _⟩ = chunk from rfl] at h0
      rcases hr : be.partResult start chunk with e2 | tag
      · rw [hr] at h0
        simp [exceptIsOk] at h0
      · have hMlt : M < rest.length := by simpa using hN
        have hok2 : ∀ i (hi : i < M),
            exceptIsOk (be.partResult (start + 1 + i) (rest.get ⟨i, Nat.lt_trans hi hMlt⟩)) = true := by
          intro i hi
          have := hok (i + 1) (Nat.succ_lt_succ hi)
          rw [show (chunk :: rest).get ⟨i + 1, _⟩ = rest.get ⟨i, Nat.lt_trans hi hMlt⟩ from rfl] at this
          rw [show start + 1 + i = start + (i + 1) by omega]
          exact this
        have hfail2 : be.partResult (start + 1 + M) (rest.get ⟨M, hMlt⟩) = .error e := by
          rw [show start + 1 + M = start + (M + 1) by omega]
          rw [show rest.get ⟨M, hMlt⟩ = (chunk :: rest).get ⟨M + 1, hN⟩ from rfl]
          exact hfail
        have := ih M hMlt (start + 1) (fsz + chunk.length) (h.update [chunk])
          (acc ++ [CompletedPart.mk tag start]) hok2 hfail2
        simp [sendPartsGo, hr, this]

theorem ChunkedHash.update_cons (h : ChunkedHash) (c : List Byte) (rest : List (List Byte)) :
    (h.update [c]).update rest = h.update (c :: rest) := rfl

/-! ## Helper lemmas: send_parts and s3_upload_file -/

theorem send_parts_honest (key : HashKey) (file : List Byte) :
    ∃ parts : List CompletedPart,
      send_parts honestUpload key file
        = (.ok (parts, FileSize.mk file.length,
                FileHash.mk (hexEncode (genericHash (some key.keyBytes) file))),
           (List.range' 1 (chunksOf CHUNK_SIZE file).length).map S3Call.uploadPart)
      ∧ parts.map CompletedPart.partNumber
          = List.range' 1 (chunksOf CHUNK_SIZE file).length := by
  obtain ⟨ps, hgo, hmap⟩ := sendPartsGo_ok honestUpload (chunksOf CHUNK_SIZE file) 1 0
    (ChunkedHash.keyed key) [] (by intro i hi; rfl)
  have hsize : (0 : Nat) + (List.map List.length (chunksOf CHUNK_SIZE file)).sum
      = file.length := by
    rw [Nat.zero_add, ← List.length_flatten, chunksOf_flatten]
  have hfin : ((ChunkedHash.keyed key).update (chunksOf CHUNK_SIZE file)).finalize
      = genericHash (some key.keyBytes) file := by
    show genericHash _ _ = _
    rw [ChunkedHash.update_key, ChunkedHash.update_fed, chunksOf_flatten]
    rfl
  refine ⟨ps, ?_, hmap⟩
  simp only [send_parts, hgo]
  simp [hsize, hfin]

theorem s3_upload_file_honest_fst (key : HashKey) (sid : List Char) (file : List Byte) :
    (s3_upload_file honestUpload key sid file).fst
      = .ok (StorageId.mk sid, FileSize.mk file.length,
             FileHash.mk (hexEncode (genericHash (some key.keyBytes) file))) := by
  obtain ⟨ps, hsp, _⟩ := send_parts_honest key file
  simp only [s3_upload_file, hsp]
  rfl

theorem s3_upload_file_parts_error (be : S3UploadBackend) (key : HashKey)
    (sid : List Char) (file : List Byte) (e : TransferError) (uid : Option (List Char))
    (hc : be.createResult = .ok uid)
    (hgo : (sendPartsGo be (chunksOf CHUNK_SIZE file) 1 0 (ChunkedHash.keyed key) []).fst
      = .error e) :
    s3_upload_file be key sid file
      = (.error e, S3Call.createMultipartUpload ::
          (sendPartsGo be (chunksOf CHUNK_SIZE file) 1 0 (ChunkedHash.keyed key) []).snd
          ++ [S3Call.abortMultipartUpload]) := by
  have hsp : send_parts be key file
      = (.error e,
         (sendPartsGo be (chunksOf CHUNK_SIZE file) 1 0 (ChunkedHash.keyed key) []).snd) := by
    simp only [send_parts, hgo]
  simp only [s3_upload_file, hc, hsp]

theorem s3_upload_file_complete_error (be : S3UploadBackend) (key : HashKey)
    (sid : List Char) (file : List Byte) (e : TransferError) (uid : Option (List Char))
    (x : List CompletedPart × FileSize × FileHash) (calls : List S3Call)
    (hc : be.createResult = .ok uid)
    (hsp : send_parts be key file = (.ok x, calls))
    (hcomp : be.completeResult = .error e) :
    s3_upload_file be key sid file
      = (.error e, S3Call.createMultipartUpload :: calls ++ [S3Call.completeMultipartUpload]) := by
  simp only [s3_upload_file, hc, hsp, hcomp]

/-! ## Helper lemmas: the download stream loop -/

theorem streamLoop_ok (w : Nat → Bool) (hw : ∀ j, w j = true) :
    ∀ (chunks : List (List Byte)) (i : Nat) (h : ChunkedHash) (content : List Byte),
      streamLoop w chunks i h content = (.ok (h.update chunks), content ++ chunks.flatten) := by
  intro chunks
  induction chunks with
  | nil =>
    intro i h content
    simp [streamLoop, ChunkedHash.update]
  | cons c rest ih =>
    intro i h content
    simp only [streamLoop, hw i, if_true]
    rw [ih, ChunkedHash.update_cons]
    simp

theorem s3_download_file_impl_honest (key : HashKey) (eh : FileHash) (es : FileSize)
    (fs : FS) (stored : List Byte) (C : List (List Byte)) (hC : C.flatten = stored) :
    s3_download_file_impl (honestDownload stored C) key eh es fs
      = if stored.length ≠ es.size then
          (.error (.sizeMismatch es.size (stored.length : Int)), fs)
        else if hexEncode (genericHash (some key.keyBytes) stored) ≠ eh.hash then
          (.error (.hashMismatch eh.hash (hexEncode (genericHash (some key.keyBytes) stored))),
           FS.mk (some stored))
        else (.ok (), FS.mk (some stored)) := by
  have hstream := streamLoop_ok (fun _ => true) (fun _ => rfl) C 0 (ChunkedHash.keyed key) []
  have hfin : ((ChunkedHash.keyed key).update C).finalize
      = genericHash (some key.keyBytes) stored := by
    show genericHash _ _ = _
    rw [ChunkedHash.update_key, ChunkedHash.update_fed, hC]
    rfl
  by_cases hsz : stored.length = es.size
  · have hcond : ¬((stored.length : Int) < 0 ∨ ((stored.length : Int)).toNat ≠ es.size) := by
      simp [hsz]
    rw [if_neg (by simpa using hsz)]
    simp only [s3_download_file_impl, honestDownload, if_neg hcond]
    simp only [hstream, List.nil_append, hC, hfin]
    by_cases hh : hexEncode (genericHash (some key.keyBytes) stored) ≠ eh.hash
    · rw [if_pos hh]
      simp [hh]
    · rw [if_neg hh]
      simp [hh]
  · have hcond : (stored.length : Int) < 0 ∨ ((stored.length : Int)).toNat ≠ es.size := by
      simp [hsz]
    rw [if_pos (by simpa using hsz)]
    simp only [s3_download_file_impl, honestDownload, if_pos hcond]

/-! ## Claim theorems -/

/-- C2: for every byte sequence and every way of splitting it into chunks,
grouped into any sequence of ChunkedHash::update calls, finalizing yields the
same digest as feeding the whole sequence in a single update call, for both
the unkeyed and the keyed accumulator. -/
theorem chunked_hash_boundary_independent (key : Option HashKey) (s : List Byte)
    (calls : List (List (List Byte))) (h : (calls.map List.flatten).flatten = s) :
    (calls.foldl ChunkedHash.update (chunkedHashInit key)).finalize
      = ((chunkedHashInit key).update [s]).finalize := by
  show genericHash _ _ = genericHash _ _
  rw [foldl_update_key, foldl_update_fed, ChunkedHash.update_key, ChunkedHash.update_fed, h]
  simp

/-- C2 witness: a concrete keyed instance, split as two update calls of one
and two Buf chunks. -/
theorem chunked_hash_boundary_independent_witness :
    (([[[1], [2, 3]], [[4]]].map List.flatten).flatten = ([1, 2, 3, 4] : List Byte))
    ∧ ([[[1], [2, 3]], [[4]]].foldl ChunkedHash.update
        (chunkedHashInit (some (HashKey.mk [7])))).finalize
      = ((chunkedHashInit (some (HashKey.mk [7]))).update [[1, 2, 3, 4]]).finalize :=
  ⟨by decide,
   chunked_hash_boundary_independent (some (HashKey.mk [7])) [1, 2, 3, 4]
     [[[1], [2, 3]], [[4]]] (by decide)⟩

set_option maxRecDepth 100000 in
/-- C7 counterexample: two contexts that differ (only after the eighth byte)
for which derive_subkey fills the output buffer with identical key bytes,
because the context is truncated to the CONTEXT_SIZE = 8-byte KDF field.
This refutes the claim that any two pairs differing in the context string
yield different keys. -/
theorem derive_subkey_context_collision_cex :
    ([49, 50, 51, 52, 53, 54, 55, 56, 57] : List Byte)
      ≠ [49, 50, 51, 52, 53, 54, 55, 56, 58]
    ∧ (MasterKey.mk (List.replicate MASTER_KEY_SIZE 43)).derive_subkey HASH_KEY_SIZE 1
        [49, 50, 51, 52, 53, 54, 55, 56, 57]
      = (MasterKey.mk (List.replicate MASTER_KEY_SIZE 43)).derive_subkey HASH_KEY_SIZE 1
        [49, 50, 51, 52, 53, 54, 55, 56, 58] :=
  ⟨by decide, by decide⟩

/-- C7 amended: derive_subkey depends on the context only through its
zero-padded CONTEXT_SIZE-byte truncation: two calls with the same master
key, output length and id whose contexts agree after truncation/zero-padding
always receive identical key bytes; distinctness is guaranteed only for
pairs differing in the id or in the truncated context field, and then only
with cryptographic-strength probability. -/
theorem derive_subkey_truncated_context (mk : MasterKey) (len id : Nat)
    (c1 c2 : List Byte) (h : contextField c1 = contextField c2) :
    mk.derive_subkey len id c1 = mk.derive_subkey len id c2 := by
  unfold MasterKey.derive_subkey
  rw [h]

/-- C7 amended witness: "a" and "a\0\0" agree after zero-padding. -/
theorem derive_subkey_truncated_context_witness :
    contextField [97] = contextField [97, 0, 0]
    ∧ (MasterKey.mk (List.replicate MASTER_KEY_SIZE 5)).derive_subkey 16 2 [97]
      = (MasterKey.mk (List.replicate MASTER_KEY_SIZE 5)).derive_subkey 16 2 [97, 0, 0] :=
  ⟨by decide,
   derive_subkey_truncated_context (MasterKey.mk (List.replicate MASTER_KEY_SIZE 5))
     16 2 [97] [97, 0, 0] (by decide)⟩

/-- C8 counterexample: the keyed ChunkedHash state's Debug output is NOT
independent of the secret key bytes — ChunkedHash derives Debug, which
prints the raw crypto_generichash_state, and two states keyed with
different keys print differently. -/
theorem chunked_hash_debug_leaks_key :
    (ChunkedHash.keyed (HashKey.mk (List.replicate HASH_KEY_SIZE 1))).debugFmt
      ≠ (ChunkedHash.keyed (HashKey.mk (List.replicate HASH_KEY_SIZE 2))).debugFmt := by
  decide

/-- C8 amended: MasterKey, HashKey and AwsConfig redact their secrets in
Debug output — the output is a fixed placeholder independent of the secret
bytes (for AwsConfig, independent of the secret access key and master key
hex) — but the keyed ChunkedHash state's derived Debug prints the raw hash
state, which depends on the key. -/
theorem secret_debug_redacted :
    (∀ mk1 mk2 : MasterKey, mk1.debugFmt = mk2.debugFmt)
    ∧ (∀ hk1 hk2 : HashKey, hk1.debugFmt = hk2.debugFmt)
    ∧ (∀ b r a sk1 sk2 m1 m2 : List Char,
        (AwsConfig.mk b r a sk1 m1).debugFmt = (AwsConfig.mk b r a sk2 m2).debugFmt) :=
  ⟨fun _ _ => rfl, fun _ _ => rfl, fun _ _ _ _ _ _ _ => rfl⟩

/-- C4: whenever s3_download_file returns an error — from any stage of the
impl (backend request, size check, body streaming, file write, hash check) —
the destination file has been deleted by the time the error is returned. -/
theorem download_failure_cleanup (be : S3DownloadBackend) (key : HashKey)
    (eh : FileHash) (es : FileSize) (fs : FS) (e : TransferError)
    (h : (s3_download_file be key eh es fs).fst = .error e) :
    (s3_download_file be key eh es fs).snd.dest = none := by
  simp only [s3_download_file] at h ⊢
  rcases hr : (s3_download_file_impl be key eh es fs).fst with e2 | u
  · simp only [hr]
    rfl
  · simp only [hr] at h
    exact Except.noConfusion h

/-- C4 witness: a failing get_object over a pre-existing destination file. -/
theorem download_failure_cleanup_witness :
    (s3_download_file failingGetBackend (HashKey.mk [7]) (FileHash.mk []) (FileSize.mk 0)
        (FS.mk (some [9]))).fst = .error (.backend ("get_object failed".data))
    ∧ (s3_download_file failingGetBackend (HashKey.mk [7]) (FileHash.mk []) (FileSize.mk 0)
        (FS.mk (some [9]))).snd.dest = none :=
  ⟨by decide,
   download_failure_cleanup failingGetBackend (HashKey.mk [7]) (FileHash.mk [])
     (FileSize.mk 0) (FS.mk (some [9])) (.backend ("get_object failed".data)) (by decide)⟩

/-- C10: when download fails before the destination file is created — a
get_object error or a size mismatch — the impl leaves the filesystem
untouched (nothing was written), yet the wrapper still deletes
destination_path, so a pre-existing file there is removed. -/
theorem download_prefailure_removes_preexisting (be : S3DownloadBackend) (key : HashKey)
    (eh : FileHash) (es : FileSize) (pre : List Byte) (e : TransferError)
    (h : be.getResult = .error e
         ∨ ∃ resp, be.getResult = .ok resp
             ∧ (resp.contentLength < 0 ∨ resp.contentLength.toNat ≠ es.size)) :
    (s3_download_file_impl be key eh es (FS.mk (some pre))).snd = FS.mk (some pre)
    ∧ exceptIsOk (s3_download_file be key eh es (FS.mk (some pre))).fst = false
    ∧ (s3_download_file be key eh es (FS.mk (some pre))).snd.dest = none := by
  have himpl : ∃ e2, s3_download_file_impl be key eh es (FS.mk (some pre))
      = (.error e2, FS.mk (some pre)) := by
    rcases h with hg | ⟨resp, hg, hsz⟩
    · exact ⟨e, by simp [s3_download_file_impl, hg]⟩
    · exact ⟨.sizeMismatch es.size resp.contentLength,
        by simp only [s3_download_file_impl, hg, if_pos hsz]⟩
  obtain ⟨e2, h2⟩ := himpl
  refine ⟨by rw [h2], ?_, ?_⟩
  · simp [s3_download_file, h2, exceptIsOk]
  · simp [s3_download_file, h2, remove_file]

/-- C10 witness: a pre-existing two-byte file at the destination is removed
by a download whose get_object call fails before anything is written. -/
theorem download_prefailure_removes_preexisting_witness :
    (s3_download_file_impl failingGetBackend (HashKey.mk [7]) (FileHash.mk [])
        (FileSize.mk 0) (FS.mk (some [9, 9]))).snd = FS.mk (some [9, 9])
    ∧ (s3_download_file failingGetBackend (HashKey.mk [7]) (FileHash.mk [])
        (FileSize.mk 0) (FS.mk (some [9, 9]))).snd.dest = none :=
  have h := download_prefailure_removes_preexisting failingGetBackend (HashKey.mk [7])
    (FileHash.mk []) (FileSize.mk 0) [9, 9] (.backend ("get_object failed".data))
    (Or.inl rfl)
  ⟨h.1, h.2.2⟩

/-- C1: uploading a file F over an honest backend returns a triple
(StorageId, FileSize, FileHash); downloading with exactly that triple (for
any chunking of the streamed body of the stored object, which is F)
succeeds, the destination file's bytes equal F, and the hex-encoded keyed
digest and byte count recomputed from the downloaded file equal the
FileHash and FileSize the upload reported. -/
theorem upload_download_round_trip (key : HashKey) (sid : List Char) (F : List Byte)
    (C : List (List Byte)) (fs : FS)
    (sidR : StorageId) (sizeR : FileSize) (hashR : FileHash)
    (hup : (s3_upload_file honestUpload key sid F).fst = .ok (sidR, sizeR, hashR))
    (hC : C.flatten = F) :
    (s3_download_file (honestDownload F C) key hashR sizeR fs).fst = .ok ()
    ∧ (s3_download_file (honestDownload F C) key hashR sizeR fs).snd.dest = some F
    ∧ (∀ D, (s3_download_file (honestDownload F C) key hashR sizeR fs).snd.dest = some D →
        hexEncode (genericHash (some key.keyBytes) D) = hashR.hash
        ∧ D.length = sizeR.size) := by
  rw [s3_upload_file_honest_fst] at hup
  have htriple := Except.ok.inj hup
  injection htriple with h1 h23
  injection h23 with h2 h3
  subst h2
  subst h3
  have himpl := s3_download_file_impl_honest key
    (FileHash.mk (hexEncode (genericHash (some key.keyBytes) F))) (FileSize.mk F.length)
    fs F C hC
  rw [if_neg (by simp)] at himpl
  rw [if_neg (by simp)] at himpl
  refine ⟨?_, ?_, ?_⟩
  · simp [s3_download_file, himpl]
  · simp [s3_download_file, himpl]
  · intro D hD
    simp [s3_download_file, himpl] at hD
    subst hD
    exact ⟨rfl, rfl⟩

/-- C1 witness: a three-byte file, streamed back in two body chunks. -/
theorem upload_download_round_trip_witness :
    (s3_upload_file honestUpload (HashKey.mk [7]) ("sid".data) [1, 2, 3]).fst
      = .ok (StorageId.mk ("sid".data), FileSize.mk 3,
             FileHash.mk (hexEncode (genericHash (some [7]) [1, 2, 3])))
    ∧ (s3_download_file (honestDownload [1, 2, 3] [[1], [2, 3]]) (HashKey.mk [7])
        (FileHash.mk (hexEncode (genericHash (some [7]) [1, 2, 3]))) (FileSize.mk 3)
        (FS.mk none)).fst = .ok ()
    ∧ (s3_download_file (honestDownload [1, 2, 3] [[1], [2, 3]]) (HashKey.mk [7])
        (FileHash.mk (hexEncode (genericHash (some [7]) [1, 2, 3]))) (FileSize.mk 3)
        (FS.mk none)).snd.dest = some [1, 2, 3] :=
  have h := upload_download_round_trip (HashKey.mk [7]) ("sid".data) [1, 2, 3]
    [[1], [2, 3]] (FS.mk none) (StorageId.mk ("sid".data)) (FileSize.mk 3)
    (FileHash.mk (hexEncode (genericHash (some [7]) [1, 2, 3]))) (by decide) (by decide)
  ⟨by decide, h.1, h.2.1⟩

/-- C3: if the upload of part N+1 fails after N successful parts,
s3_upload_file issues an abort_multipart_upload call, never issues
complete_multipart_upload, and returns the part-upload error itself — for
every backend, including one whose abort call fails. -/
theorem upload_part_failure_aborts (be : S3UploadBackend) (key : HashKey)
    (sid : List Char) (file : List Byte) (uid : Option (List Char))
    (e : TransferError) (N : Nat)
    (hc : be.createResult = .ok uid)
    (hN : N < (chunksOf CHUNK_SIZE file).length)
    (hok : ∀ i (hi : i < N),
      exceptIsOk (be.partResult (1 + i)
        ((chunksOf CHUNK_SIZE file).get ⟨i, Nat.lt_trans hi hN⟩)) = true)
    (hfail : be.partResult (1 + N) ((chunksOf CHUNK_SIZE file).get ⟨N, hN⟩) = .error e) :
    (s3_upload_file be key sid file).fst = .error e
    ∧ S3Call.abortMultipartUpload ∈ (s3_upload_file be key sid file).snd
    ∧ S3Call.completeMultipartUpload ∉ (s3_upload_file be key sid file).snd := by
  have hgo := sendPartsGo_fail be e (chunksOf CHUNK_SIZE file) N hN 1 0
    (ChunkedHash.keyed key) [] hok hfail
  have heq := s3_upload_file_parts_error be key sid file e uid hc hgo
  rw [heq]
  refine ⟨rfl, by simp, ?_⟩
  intro hmem
  simp only [List.mem_cons, List.mem_append, List.mem_singleton] at hmem
  rcases hmem with (h1 | h2) | h3 | h4
  · exact S3Call.noConfusion h1
  · obtain ⟨m, hm⟩ := sendPartsGo_calls be _ _ _ _ _ _ h2
    exact S3Call.noConfusion hm
  · exact S3Call.noConfusion h3
  · exact absurd h4 (List.not_mem_nil _)

/-- C3 witness: the very first part fails (N = 0) on a backend whose abort
call itself fails; the original part error is still returned, an abort call
is issued, and no complete call is issued. -/
theorem upload_part_failure_aborts_witness :
    (s3_upload_file failingPartBackend (HashKey.mk [7]) ("sid".data) [1, 2, 3]).fst
      = .error (.backend ("part upload failed".data))
    ∧ S3Call.abortMultipartUpload
        ∈ (s3_upload_file failingPartBackend (HashKey.mk [7]) ("sid".data) [1, 2, 3]).snd
    ∧ S3Call.completeMultipartUpload
        ∉ (s3_upload_file failingPartBackend (HashKey.mk [7]) ("sid".data) [1, 2, 3]).snd :=
  upload_part_failure_aborts failingPartBackend (HashKey.mk [7]) ("sid".data) [1, 2, 3]
    (some ("upload-id".data)) (.backend ("part upload failed".data)) 0 rfl (by decide)
    (fun i hi => absurd hi (Nat.not_lt_zero i)) rfl

/-- C5: upload reads the file as fixed-size CHUNK_SIZE = 100 MiB chunks
whose concatenation is the file, every chunk non-empty and at most
CHUNK_SIZE long; one part is uploaded per chunk with part numbers exactly
1, 2, ...; a file of exactly CHUNK_SIZE bytes yields one chunk, the empty
file yields zero parts and the digest of the empty input, and a file of
CHUNK_SIZE + 1 bytes yields exactly two chunks. -/
theorem upload_chunking (key : HashKey) (sid : List Char) (b : Byte) (file : List Byte) :
    (chunksOf CHUNK_SIZE file).flatten = file
    ∧ (∀ c ∈ chunksOf CHUNK_SIZE file, c ≠ [] ∧ c.length ≤ CHUNK_SIZE)
    ∧ (∀ parts rest calls, send_parts honestUpload key file = (.ok (parts, rest), calls) →
        parts.map CompletedPart.partNumber
          = List.range' 1 (chunksOf CHUNK_SIZE file).length)
    ∧ chunksOf CHUNK_SIZE (List.replicate CHUNK_SIZE b) = [List.replicate CHUNK_SIZE b]
    ∧ s3_upload_file honestUpload key sid []
        = (.ok (StorageId.mk sid, FileSize.mk 0,
                FileHash.mk (hexEncode (genericHash (some key.keyBytes) []))),
           [S3Call.createMultipartUpload, S3Call.completeMultipartUpload])
    ∧ chunksOf CHUNK_SIZE (List.replicate (CHUNK_SIZE + 1) b)
        = [List.replicate CHUNK_SIZE b, [b]] := by
  refine ⟨chunksOf_flatten _ _, ?_, ?_, chunksOf_replicate_exact b, ?_,
    chunksOf_replicate_succ b⟩
  · intro c hc
    exact ⟨chunksOfGo_ne_nil _ _ _ _ hc,
      chunksOfGo_length_le _ _ _ (by simpa using CHUNK_SIZE_pos) _ hc⟩
  · intro parts rest calls heq
    obtain ⟨ps, hsp, hmap⟩ := send_parts_honest key file
    rw [hsp] at heq
    simp only [Prod.mk.injEq, Except.ok.injEq] at heq
    exact heq.1.1 ▸ hmap
  · rfl

/-- C5 witness: a three-byte file is one chunk, uploaded as the single part
number 1. -/
theorem upload_chunking_witness :
    send_parts honestUpload (HashKey.mk [7]) [1, 2, 3]
      = (.ok ([CompletedPart.mk (some ("etag".data)) 1],
              (FileSize.mk 3, FileHash.mk (hexEncode (genericHash (some [7]) [1, 2, 3])))),
         [S3Call.uploadPart 1])
    ∧ [CompletedPart.mk (some ("etag".data)) 1].map CompletedPart.partNumber
        = List.range' 1 (chunksOf CHUNK_SIZE [1, 2, 3]).length :=
  ⟨by decide,
   (upload_chunking (HashKey.mk [7]) ("sid".data) 0 [1, 2, 3]).2.2.1
     [CompletedPart.mk (some ("etag".data)) 1]
     (FileSize.mk 3, FileHash.mk (hexEncode (genericHash (some [7]) [1, 2, 3])))
     [S3Call.uploadPart 1] (by decide)⟩

/-- C6: over an honest backend serving a stored object, a wrong
expected_size makes download fail with the size-mismatch error before the
destination file is even created (the impl leaves the filesystem untouched),
and — with the size right — a wrong expected_hash makes it fail with the
hash-mismatch error, with no file left at the destination in either case. -/
theorem download_mismatch_errors (key : HashKey) (eh : FileHash) (es : FileSize)
    (fs : FS) (stored : List Byte) (C : List (List Byte)) (hC : C.flatten = stored) :
    (es.size ≠ stored.length →
      s3_download_file_impl (honestDownload stored C) key eh es fs
        = (.error (.sizeMismatch es.size (stored.length : Int)), fs)
      ∧ s3_download_file (honestDownload stored C) key eh es fs
        = (.error (.sizeMismatch es.size (stored.length : Int)), FS.mk none))
    ∧ (es.size = stored.length →
       eh.hash ≠ hexEncode (genericHash (some key.keyBytes) stored) →
       s3_download_file (honestDownload stored C) key eh es fs
         = (.error (.hashMismatch eh.hash (hexEncode (genericHash (some key.keyBytes) stored))),
            FS.mk none)) := by
  have himpl := s3_download_file_impl_honest key eh es fs stored C hC
  constructor
  · intro hsz
    rw [if_pos (Ne.symm hsz)] at himpl
    refine ⟨himpl, ?_⟩
    simp [s3_download_file, himpl, remove_file]
  · intro hsz hh
    rw [if_neg (by omega : ¬stored.length ≠ es.size), if_pos (Ne.symm hh)] at himpl
    simp [s3_download_file, himpl, remove_file]

/-- C6 witness: a two-byte stored object; expected_size 5 gives the
size-mismatch error, and with the right size an expected_hash of "xx" gives
the hash-mismatch error. -/
theorem download_mismatch_errors_witness :
    s3_download_file (honestDownload [1, 2] [[1, 2]]) (HashKey.mk [7])
        (FileHash.mk ("xx".data)) (FileSize.mk 5) (FS.mk none)
      = (.error (.sizeMismatch 5 ((2 : Nat) : Int)), FS.mk none)
    ∧ s3_download_file (honestDownload [1, 2] [[1, 2]]) (HashKey.mk [7])
        (FileHash.mk ("xx".data)) (FileSize.mk 2) (FS.mk none)
      = (.error (.hashMismatch ("xx".data) (hexEncode (genericHash (some [7]) [1, 2]))),
         FS.mk none) :=
  ⟨((download_mismatch_errors (HashKey.mk [7]) (FileHash.mk ("xx".data)) (FileSize.mk 5)
      (FS.mk none) [1, 2] [[1, 2]] (by decide)).1 (by decide)).2,
   (download_mismatch_errors (HashKey.mk [7]) (FileHash.mk ("xx".data)) (FileSize.mk 2)
      (FS.mk none) [1, 2] [[1, 2]] (by decide)).2 (by decide) (by decide)⟩

/-- C9: if every part uploads successfully but complete_multipart_upload
fails, s3_upload_file returns that error, a complete call was issued, and
no abort call is issued (the multipart session is left open). -/
theorem upload_complete_failure_no_abort (be : S3UploadBackend) (key : HashKey)
    (sid : List Char) (file : List Byte) (uid : Option (List Char)) (e : TransferError)
    (hc : be.createResult = .ok uid)
    (hok : ∀ i (hi : i < (chunksOf CHUNK_SIZE file).length),
      exceptIsOk (be.partResult (1 + i) ((chunksOf CHUNK_SIZE file).get ⟨i, hi⟩)) = true)
    (hcomp : be.completeResult = .error e) :
    (s3_upload_file be key sid file).fst = .error e
    ∧ S3Call.completeMultipartUpload ∈ (s3_upload_file be key sid file).snd
    ∧ S3Call.abortMultipartUpload ∉ (s3_upload_file be key sid file).snd := by
  obtain ⟨ps, hgo, hmap⟩ := sendPartsGo_ok be (chunksOf CHUNK_SIZE file) 1 0
    (ChunkedHash.keyed key) [] hok
  have hsp : send_parts be key file
      = (.ok ([] ++ ps,
              FileSize.mk (0 + (List.map List.length (chunksOf CHUNK_SIZE file)).sum),
              FileHash.mk (hexEncode
                (((ChunkedHash.keyed key).update (chunksOf CHUNK_SIZE file)).finalize))),
         (List.range' 1 (chunksOf CHUNK_SIZE file).length).map S3Call.uploadPart) := by
    simp only [send_parts, hgo]
  have heq := s3_upload_file_complete_error be key sid file e uid _ _ hc hsp hcomp
  rw [heq]
  refine ⟨rfl, by simp, ?_⟩
  intro hmem
  simp only [List.mem_cons, List.mem_append, List.mem_singleton, List.mem_map] at hmem
  rcases hmem with (h1 | ⟨m, _, hm⟩) | h3 | h4
  · exact S3Call.noConfusion h1
  · exact S3Call.noConfusion hm
  · exact S3Call.noConfusion h3
  · exact absurd h4 (List.not_mem_nil _)

/-- C9 witness: one part uploads fine, complete fails; the complete error is
returned and no abort call appears in the trace. -/
theorem upload_complete_failure_no_abort_witness :
    (s3_upload_file failingCompleteBackend (HashKey.mk [7]) ("sid".data) [1, 2, 3]).fst
      = .error (.backend ("complete failed".data))
    ∧ S3Call.abortMultipartUpload
        ∉ (s3_upload_file failingCompleteBackend (HashKey.mk [7]) ("sid".data) [1, 2, 3]).snd :=
  have h := upload_complete_failure_no_abort failingCompleteBackend (HashKey.mk [7])
    ("sid".data) [1, 2, 3] (some ("upload-id".data)) (.backend ("complete failed".data))
    rfl (fun _i _hi => rfl) rfl
  ⟨h.1, h.2.2⟩

end PrivateCloud
